import Mathlib

/-!
Verification of the nakatoshi vanity-address searcher against `src/main.rs`.

The embedding models the sequential semantics of `main`'s rayon pipeline
`repeat(BitcoinAddress::new).inspect(|_| progress.inc(1)).map(..).find_any(..)`,
the pattern-file loading in `get_regexes_from_file`, and the thread-count
resolution.  The key-pair generator and the regex engine are external
collaborators and are abstracted as function parameters; the pattern matcher
`BitcoinAddress::matches_with_any` lives in `address.rs`, which is not part of
the sources at hand, and is modelled from the specification.
-/

namespace Nakatoshi

/-- A generated key pair plus its derived address string (`BitcoinAddress` in
the program); the search core treats the three encodings as opaque strings. -/
structure Candidate where
  private_key : String
  public_key : String
  address : String
deriving DecidableEq

/-- The winning candidate together with the final value of the attempt counter
(`progress.position()` in `main`). -/
structure SearchResult where
  candidate : Candidate
  attempts : Nat
deriving DecidableEq

/-- Modelled from the spec: the Pattern Matcher `BitcoinAddress::matches_with_any`
of `address.rs` (not among the sources).  Spec §4.2: iterate the patterns in
order and return true on the first regular-expression hit; in case-insensitive
mode both the pattern and the address are case-folded first.  The regex engine
itself is an external collaborator, abstracted as `isMatch pattern text`. -/
def matches_with_any (isMatch : String → String → Bool) (addr : String)
    (regexes : List String) (case_sensitive : Bool) : Bool :=
  regexes.any fun re =>
    if case_sensitive then isMatch re addr
    else isMatch re.toLower addr.toLower

/-- One finished line of `BufRead::lines`: the terminating newline byte was
consumed, and a trailing carriage return is stripped (it is stripped only for
newline-terminated lines; `linesAux` calls this only in that case).  `acc`
holds the line's characters in reverse. -/
def finishLine (acc : List Char) : String :=
  match acc with
  | '\r' :: rest => String.mk rest.reverse
  | _ => String.mk acc.reverse

/-- Character-level loop behind `rustLines`: a `\n` closes the current line; a
final unterminated segment becomes a line without carriage-return stripping,
and no empty trailing line is produced for newline-terminated input. -/
def linesAux : List Char → List Char → List String
  | [], acc => if acc.isEmpty then [] else [String.mk acc.reverse]
  | '\n' :: cs, acc => finishLine acc :: linesAux cs []
  | c :: cs, acc => linesAux cs (c :: acc)

/-- The sequence of lines `BufReader::lines` yields for a file with the given
contents, each without its terminator. -/
def rustLines (s : String) : List String :=
  linesAux s.data []

/-- Stable insertion step: `x` is placed before the first element whose length
is at least `x.length`, so elements of equal length keep their existing order. -/
def insertByLen (x : String) : List String → List String
  | [] => [x]
  | y :: ys => if x.length ≤ y.length then x :: y :: ys else y :: insertByLen x ys

/-- `regexes.sort_by_key(|a| a.len())` in `get_regexes_from_file`: Rust
specifies `sort_by_key` as a stable ascending sort by the key, and a stable
sort's output is uniquely determined by that specification, so the stable
insertion sort below is an exact model of it. -/
def sortByLen : List String → List String
  | [] => []
  | x :: xs => insertByLen x (sortByLen xs)

/-- `get_regexes_from_file`: `File::open(..).unwrap()` aborts when the file is
unreadable (modelled by `none`); otherwise every line of the file becomes one
pattern and the vector is stably sorted ascending by length.  No validation of
any kind is applied to the lines. -/
def get_regexes_from_file (file : Option String) : Except String (List String) :=
  match file with
  | none => Except.error "get_regexes_from_file: File::open failed"
  | some contents => Except.ok (sortByLen (rustLines contents))

/-- Pattern selection in `main`: a present `--regex` is used verbatim as a
one-element vector; otherwise the patterns come from the input file. -/
def resolve_regexes (regexArg : Option String) (file : Option String) :
    Except String (List String) :=
  match regexArg with
  | some re => Except.ok [re]
  | none => get_regexes_from_file file

/-- Rust `str::parse::<usize>`: an optional leading plus sign, then one or more
ASCII digits, rejecting values past the 64-bit `usize::MAX`. -/
def parse_usize (s : String) : Option Nat :=
  let digits := match s.data with
    | '+' :: rest => rest
    | l => l
  if digits = [] then none
  else if digits.all Char.isDigit then
    let v := digits.foldl (fun acc c => acc * 10 + (c.toNat - 48)) 0
    if v < 2 ^ 64 then some v else none
  else none

/-- `main`'s thread-count resolution:
`matches.get_one("threads").and_then(|n| n.parse().ok()).unwrap_or_else(num_cpus::get)`.
A missing or unparsable `--threads` value silently falls back to the processor
count. -/
def resolve_num_threads (threadsArg : Option String) (ncpus : Nat) : Nat :=
  match threadsArg.bind parse_usize with
  | some n => n
  | none => ncpus

/-- `rayon::ThreadPoolBuilder::num_threads(n).build()`: rayon documents a count
of 0 as "select the number of threads automatically" (the processor count), and
the build does not fail on account of the thread count, so `main`'s `.expect`
on it never fires for any `--threads` value. -/
def rayon_effective_threads (n : Nat) (ncpus : Nat) : Nat :=
  if n = 0 then ncpus else n

/-- Sequential semantics of the pipeline
`repeat(BitcoinAddress::new).inspect(|_| progress.inc(1)).map(..).find_any(..)`
in `main`: candidate `i` of the generation stream is `gen i`; for each
candidate the shared counter is incremented (`inspect`), the key pair is
generated (`map`) and the predicate is tested (`find_any`), stopping at the
first success.  `fuel` bounds the number of candidates examined, modelling a
terminating run; the reported `attempts` is the counter's final value
(`progress.position()`). -/
def searchFrom (gen : Nat → Candidate) (p : Candidate → Bool) :
    Nat → Nat → Nat → Option SearchResult
  | 0, _, _ => none
  | fuel + 1, i, counter =>
    if p (gen i) then some ⟨gen i, counter + 1⟩
    else searchFrom gen p fuel (i + 1) (counter + 1)

/-- A whole search run: stream position and attempt counter both start at 0. -/
def search (gen : Nat → Candidate) (p : Candidate → Bool) (fuel : Nat) :
    Option SearchResult :=
  searchFrom gen p fuel 0 0

/-- The successive values the shared attempt counter takes during a run of
`searchFrom`: one increment per candidate drawn, recorded after the increment. -/
def counterTraceFrom (gen : Nat → Candidate) (p : Candidate → Bool) :
    Nat → Nat → Nat → List Nat
  | 0, _, _ => []
  | fuel + 1, i, counter =>
    if p (gen i) then [counter + 1]
    else (counter + 1) :: counterTraceFrom gen p fuel (i + 1) (counter + 1)

/-- Counter history of a whole run. -/
def counterTrace (gen : Nat → Candidate) (p : Candidate → Bool) (fuel : Nat) :
    List Nat :=
  counterTraceFrom gen p fuel 0 0

/-- Observable per-candidate events of the pipeline, in the order the iterator
adapters run for candidate `i`: the `inspect` closure increments the counter,
then `map` generates the key pair, then `find_any` runs the match test. -/
inductive Ev where
  | inc (i : Nat)
  | keygen (i : Nat)
  | matchTest (i : Nat)
deriving DecidableEq

/-- The event trace of a sequential run: for each candidate drawn, the three
events in adapter order; the run stops after the first successful match test. -/
def eventTrace (gen : Nat → Candidate) (p : Candidate → Bool) :
    Nat → Nat → List Ev
  | 0, _ => []
  | fuel + 1, i =>
    Ev.inc i :: Ev.keygen i :: Ev.matchTest i ::
      (if p (gen i) then [] else eventTrace gen p fuel (i + 1))

/-- `main` after CLI parsing: resolve the thread count (never fatal), resolve
the pattern vector (fatal when the input file is unreadable), run the search on
the pool, and report the result.  A `none` from the bounded search models the
`.expect` on `find_any`, which is unreachable on the infinite stream. -/
def run (threadsArg regexArg file : Option String) (case_sensitive : Bool)
    (gen : Nat → Candidate) (isMatch : String → String → Bool)
    (fuel ncpus : Nat) : Except String SearchResult :=
  let _nthreads := rayon_effective_threads (resolve_num_threads threadsArg ncpus) ncpus
  match resolve_regexes regexArg file with
  | Except.error e => Except.error e
  | Except.ok regexes =>
    match search gen
        (fun c => matches_with_any isMatch c.address regexes case_sensitive) fuel with
    | some r => Except.ok r
    | none => Except.error "Failed to find Bitcoin address match"

/-! ### Properties of the stable length sort -/

/-- Inserting is a permutation of consing. -/
theorem insertByLen_perm (x : String) (l : List String) :
    (insertByLen x l).Perm (x :: l) := by
  induction l with
  | nil => exact List.Perm.refl _
  | cons y ys ih =>
    simp only [insertByLen]
    split
    · exact List.Perm.refl _
    · exact (ih.cons y).trans (List.Perm.swap x y ys)

/-- The sort permutes its input: every line of the file, empty or not, is kept. -/
theorem sortByLen_perm (l : List String) : (sortByLen l).Perm l := by
  induction l with
  | nil => exact List.Perm.refl _
  | cons x xs ih =>
    simp only [sortByLen]
    exact (insertByLen_perm x (sortByLen xs)).trans (ih.cons x)

/-- Inserting preserves sortedness by length. -/
theorem insertByLen_pairwise {x : String} {l : List String}
    (h : l.Pairwise fun a b => a.length ≤ b.length) :
    (insertByLen x l).Pairwise fun a b => a.length ≤ b.length := by
  induction l with
  | nil => simp [insertByLen]
  | cons y ys ih =>
    rw [List.pairwise_cons] at h
    obtain ⟨hy, hys⟩ := h
    simp only [insertByLen]
    split
    · rename_i hxy
      refine List.pairwise_cons.2 ⟨?_, List.pairwise_cons.2 ⟨hy, hys⟩⟩
      intro z hz
      rcases List.mem_cons.1 hz with rfl | hz
      · exact hxy
      · exact le_trans hxy (hy z hz)
    · rename_i hxy
      refine List.pairwise_cons.2 ⟨?_, ih hys⟩
      intro z hz
      rcases List.mem_cons.1 ((insertByLen_perm x ys).mem_iff.1 hz) with rfl | hz
      · omega
      · exact hy z hz

/-- The sort's output is ascending in length. -/
theorem sortByLen_pairwise (l : List String) :
    (sortByLen l).Pairwise fun a b => a.length ≤ b.length := by
  induction l with
  | nil => simp [sortByLen]
  | cons x xs ih =>
    simp only [sortByLen]
    exact insertByLen_pairwise ih

/-- Stability of one insertion, seen through the length-`k` filter: the inserted
element lands in front of the elements of its own length class and the other
classes are untouched. -/
theorem filter_insertByLen (x : String) (l : List String) (k : Nat) :
    (insertByLen x l).filter (fun s => s.length == k)
      = if x.length = k then x :: l.filter (fun s => s.length == k)
        else l.filter (fun s => s.length == k) := by
  induction l with
  | nil =>
    by_cases hk : x.length = k <;> simp [insertByLen, List.filter_cons, hk]
  | cons y ys ih =>
    simp only [insertByLen]
    by_cases hxy : x.length ≤ y.length
    · rw [if_pos hxy]
      by_cases hk : x.length = k <;> simp [List.filter_cons, hk]
    · rw [if_neg hxy]
      by_cases hk : x.length = k
      · have hy : ¬ y.length = k := by omega
        simp [List.filter_cons, hk, hy, ih]
      · simp [List.filter_cons, hk, ih]

/-- Stability of the whole sort: each length class of the output is exactly the
length class of the input, in the input's order. -/
theorem filter_sortByLen (l : List String) (k : Nat) :
    (sortByLen l).filter (fun s => s.length == k)
      = l.filter (fun s => s.length == k) := by
  induction l with
  | nil => rfl
  | cons x xs ih =>
    simp only [sortByLen]
    rw [filter_insertByLen]
    by_cases hk : x.length = k <;> simp [List.filter_cons, hk, ih]

/-- Inserting below all elements is a cons. -/
theorem insertByLen_of_le {x : String} {l : List String}
    (h : ∀ y ∈ l, x.length ≤ y.length) : insertByLen x l = x :: l := by
  cases l with
  | nil => rfl
  | cons y ys =>
    simp only [insertByLen]
    rw [if_pos (h y (List.mem_cons_self y ys))]

/-- Sorting a list already ascending in length returns it unchanged. -/
theorem sortByLen_of_pairwise {l : List String}
    (h : l.Pairwise fun a b => a.length ≤ b.length) : sortByLen l = l := by
  induction l with
  | nil => rfl
  | cons x xs ih =>
    rw [List.pairwise_cons] at h
    obtain ⟨hx, hxs⟩ := h
    simp only [sortByLen]
    rw [ih hxs, insertByLen_of_le hx]

/-! ### Properties of the search loop -/

/-- A terminating `searchFrom` run found the first matching candidate at some
stream offset `k`, and its reported attempt count is the counter after `k + 1`
increments. -/
theorem searchFrom_eq_some {gen : Nat → Candidate} {p : Candidate → Bool} :
    ∀ (fuel : Nat) {i counter : Nat} {r : SearchResult},
      searchFrom gen p fuel i counter = some r →
      ∃ k, k < fuel ∧ p (gen (i + k)) = true ∧
        (∀ j, j < k → p (gen (i + j)) = false) ∧
        r.candidate = gen (i + k) ∧ r.attempts = counter + k + 1 := by
  intro fuel
  induction fuel with
  | zero => intro i counter r h; simp [searchFrom] at h
  | succ fuel ih =>
    intro i counter r h
    cases hp : p (gen i) with
    | true =>
      simp only [searchFrom, hp, if_true] at h
      obtain rfl : SearchResult.mk (gen i) (counter + 1) = r := by
        simpa using h
      refine ⟨0, Nat.succ_pos _, by simpa using hp, ?_, by simp, by simp⟩
      intro j hj
      omega
    | false =>
      simp only [searchFrom, hp] at h
      obtain ⟨k, hk, hpk, hall, hc, ha⟩ := ih h
      refine ⟨k + 1, by omega, ?_, ?_, ?_, by omega⟩
      · have e : i + (k + 1) = i + 1 + k := by omega
        rw [e]; exact hpk
      · intro j hj
        cases j with
        | zero => simpa using hp
        | succ j =>
          have e : i + (j + 1) = i + 1 + j := by omega
          rw [e]; exact hall j (by omega)
      · have e : i + (k + 1) = i + 1 + k := by omega
        rw [e]; exact hc

/-- On a terminating run, the counter history is the consecutive block of
values from one increment above the start up to the reported attempt count. -/
theorem counterTraceFrom_of_some {gen : Nat → Candidate} {p : Candidate → Bool} :
    ∀ (fuel : Nat) {i counter : Nat} {r : SearchResult},
      searchFrom gen p fuel i counter = some r →
      counter < r.attempts ∧
      counterTraceFrom gen p fuel i counter
        = List.range' (counter + 1) (r.attempts - counter) := by
  intro fuel
  induction fuel with
  | zero => intro i counter r h; simp [searchFrom] at h
  | succ fuel ih =>
    intro i counter r h
    cases hp : p (gen i) with
    | true =>
      simp only [searchFrom, hp, if_true] at h
      obtain rfl : SearchResult.mk (gen i) (counter + 1) = r := by
        simpa using h
      refine ⟨Nat.lt_succ_self counter, ?_⟩
      show counterTraceFrom gen p (fuel + 1) i counter
        = List.range' (counter + 1) (counter + 1 - counter)
      have e : counter + 1 - counter = 1 := by omega
      simp only [counterTraceFrom, hp, if_true, e]
      rfl
    | false =>
      simp only [searchFrom, hp] at h
      obtain ⟨h1, h2⟩ := ih h
      refine ⟨by omega, ?_⟩
      simp only [counterTraceFrom, hp, Bool.false_eq_true, if_false]
      rw [h2]
      have e : r.attempts - counter = (r.attempts - (counter + 1)) + 1 := by omega
      rw [e, List.range'_succ]

/-- Skipping three foreign events shifts an index by three. -/
theorem indexOf_cons3_ne {a b c x : Ev} (l : List Ev)
    (h1 : a ≠ x) (h2 : b ≠ x) (h3 : c ≠ x) :
    (a :: b :: c :: l).indexOf x = l.indexOf x + 3 := by
  rw [List.indexOf_cons_ne _ h1, List.indexOf_cons_ne _ h2, List.indexOf_cons_ne _ h3]

/-- In any event trace, a candidate's counter increment precedes its key-pair
generation, which precedes its match test. -/
theorem eventTrace_order {gen : Nat → Candidate} {p : Candidate → Bool} :
    ∀ (fuel i j : Nat), Ev.keygen j ∈ eventTrace gen p fuel i →
      (eventTrace gen p fuel i).indexOf (Ev.inc j)
          < (eventTrace gen p fuel i).indexOf (Ev.keygen j) ∧
      (eventTrace gen p fuel i).indexOf (Ev.keygen j)
          < (eventTrace gen p fuel i).indexOf (Ev.matchTest j) := by
  intro fuel
  induction fuel with
  | zero => intro i j h; simp [eventTrace] at h
  | succ fuel ih =>
    intro i j h
    by_cases hij : j = i
    · subst hij
      constructor
      · simp only [eventTrace, List.indexOf_cons_self,
          List.indexOf_cons_ne _ (by simp : Ev.inc j ≠ Ev.keygen j)]
        omega
      · simp only [eventTrace,
          List.indexOf_cons_ne _ (by simp : Ev.inc j ≠ Ev.keygen j),
          List.indexOf_cons_ne _ (by simp : Ev.inc j ≠ Ev.matchTest j),
          List.indexOf_cons_ne _ (by simp : Ev.keygen j ≠ Ev.matchTest j),
          List.indexOf_cons_self]
        omega
    · have hij' : i ≠ j := fun e => hij e.symm
      cases hp : p (gen i) with
      | true =>
        rw [eventTrace] at h
        simp [hp, hij] at h
      | false =>
        have hmem : Ev.keygen j ∈ eventTrace gen p fuel (i + 1) := by
          rw [eventTrace] at h
          simpa [hp, hij] using h
        obtain ⟨ih1, ih2⟩ := ih (i + 1) j hmem
        have treq : eventTrace gen p (fuel + 1) i
            = Ev.inc i :: Ev.keygen i :: Ev.matchTest i :: eventTrace gen p fuel (i + 1) := by
          simp [eventTrace, hp]
        rw [treq,
          indexOf_cons3_ne _ (by simp [hij']) (by simp) (by simp),
          indexOf_cons3_ne _ (by simp) (by simp [hij']) (by simp),
          indexOf_cons3_ne _ (by simp) (by simp) (by simp [hij'])]
        omega

/-! ### Claim theorems -/

/-- C1: every terminating run of the search produces exactly one
`SearchResult`, and its candidate's address satisfies `matches_with_any` for
the configured patterns under the configured case-sensitivity policy. -/
theorem search_result_matches (gen : Nat → Candidate)
    (isMatch : String → String → Bool) (regexes : List String)
    (case_sensitive : Bool) (fuel : Nat) (r : SearchResult)
    (h : search gen
        (fun c => matches_with_any isMatch c.address regexes case_sensitive) fuel
      = some r) :
    matches_with_any isMatch r.candidate.address regexes case_sensitive = true := by
  obtain ⟨k, -, hpk, -, hc, -⟩ := searchFrom_eq_some fuel h
  rw [hc]
  exact hpk

theorem search_result_matches_w :
    matches_with_any (fun re s => re == s)
        (SearchResult.mk ⟨"p", "q", "1abZ"⟩ 1).candidate.address ["1abZ"] true = true :=
  search_result_matches (fun _ => ⟨"p", "q", "1abZ"⟩) (fun re s => re == s)
    ["1abZ"] true 1 ⟨⟨"p", "q", "1abZ"⟩, 1⟩ (by decide)

/-- C2: during one search the shared attempt counter starts at 0 and is
incremented exactly once per candidate drawn, so its history is the strictly
increasing block `1, 2, ..., attempts`; the reported `attempts` is the
counter's final value, equals the number of candidates evaluated, and is at
least 1 whenever a result is reported. -/
theorem attempt_counter_invariants (gen : Nat → Candidate) (p : Candidate → Bool)
    (fuel : Nat) (r : SearchResult) (h : search gen p fuel = some r) :
    counterTrace gen p fuel = List.range' 1 r.attempts ∧
    (counterTrace gen p fuel).Pairwise (· < ·) ∧
    (counterTrace gen p fuel).length = r.attempts ∧
    (counterTrace gen p fuel).getLast? = some r.attempts ∧
    1 ≤ r.attempts := by
  obtain ⟨h0, htr⟩ := counterTraceFrom_of_some fuel h
  have htr' : counterTrace gen p fuel = List.range' 1 r.attempts := by
    rw [counterTrace, htr]
    norm_num
  refine ⟨htr', ?_, ?_, ?_, by omega⟩
  · rw [htr']
    exact List.pairwise_lt_range' 1 r.attempts
  · rw [htr']
    simp
  · rw [htr', List.getLast?_range', if_neg (by omega)]
    congr 1
    omega

theorem attempt_counter_invariants_w :
    counterTrace (fun _ => ⟨"p", "q", "ab"⟩) (fun c => c.address == "ab") 2
        = List.range' 1 1 ∧
    (counterTrace (fun _ => ⟨"p", "q", "ab"⟩)
        (fun c => c.address == "ab") 2).Pairwise (· < ·) ∧
    (counterTrace (fun _ => ⟨"p", "q", "ab"⟩)
        (fun c => c.address == "ab") 2).length = 1 ∧
    (counterTrace (fun _ => ⟨"p", "q", "ab"⟩)
        (fun c => c.address == "ab") 2).getLast? = some 1 ∧
    1 ≤ 1 :=
  attempt_counter_invariants (fun _ => ⟨"p", "q", "ab"⟩)
    (fun c => c.address == "ab") 2 ⟨⟨"p", "q", "ab"⟩, 1⟩ (by decide)

/-- C3: for every pattern file, the Pattern Set handed to the core is the
file's lines stably sorted ascending by length: the output is ascending,
every length class keeps the file's order, and the file with patterns
`abcd`, `ab` yields `ab` before `abcd`. -/
theorem pattern_set_sorted_stable :
    (∀ contents : String,
      get_regexes_from_file (some contents)
          = Except.ok (sortByLen (rustLines contents)) ∧
      (sortByLen (rustLines contents)).Pairwise
        (fun a b => a.length ≤ b.length) ∧
      ∀ k : Nat,
        (sortByLen (rustLines contents)).filter (fun s => s.length == k)
          = (rustLines contents).filter (fun s => s.length == k)) ∧
    get_regexes_from_file (some "abcd\nab") = Except.ok ["ab", "abcd"] :=
  ⟨fun _ => ⟨rfl, sortByLen_pairwise _, fun k => filter_sortByLen _ k⟩, rfl⟩

/-- C4 counterexample: Pattern Set construction performs no validation — for
an empty readable file it succeeds with an empty set instead of raising a
fatal configuration error, and a syntactically malformed pattern such as `(`
is accepted verbatim at construction. -/
theorem pattern_validation_cex :
    get_regexes_from_file (some "") = Except.ok ([] : List String) ∧
    resolve_regexes none (some "") = Except.ok ([] : List String) ∧
    resolve_regexes (some "(") none = Except.ok ["("] :=
  ⟨rfl, rfl, rfl⟩

/-- C4 (amended): Pattern Set construction never fails on a readable file: the
constructed set may be empty and its elements are not checked for regex
validity, so a malformed pattern is not rejected at construction time. -/
theorem pattern_construction_no_validation :
    ∀ contents : String, ∃ regexes : List String,
      get_regexes_from_file (some contents) = Except.ok regexes :=
  fun _ => ⟨_, rfl⟩

/-- C5 counterexample: an unparsable `--threads` value does not abort — it
silently resolves to the processor count, a parsed zero is replaced by the
pool's automatic default, and with the invalid value the search still runs
and reports a result. -/
theorem thread_count_cex :
    parse_usize "abc" = none ∧
    resolve_num_threads (some "abc") 8 = 8 ∧
    rayon_effective_threads (resolve_num_threads (some "0") 8) 8 = 8 ∧
    run (some "abc") (some "ab") none true (fun _ => ⟨"p", "q", "ab"⟩)
        (fun re s => re == s) 1 8
      = Except.ok ⟨⟨"p", "q", "ab"⟩, 1⟩ :=
  ⟨rfl, rfl, rfl, rfl⟩

/-- C5 (amended): a `--threads` value that does not parse as a number silently
resolves to the processor count, and a parsed zero reaches the pool builder,
which substitutes its automatic default; neither case is a fatal error. -/
theorem thread_count_fallback (s : String) (ncpus : Nat)
    (h : parse_usize s = none) :
    resolve_num_threads (some s) ncpus = ncpus ∧
    rayon_effective_threads (resolve_num_threads (some "0") ncpus) ncpus = ncpus := by
  constructor
  · simp [resolve_num_threads, Option.bind, h]
  · rfl

theorem thread_count_fallback_w :
    resolve_num_threads (some "abc") 8 = 8 ∧
    rayon_effective_threads (resolve_num_threads (some "0") 8) 8 = 8 :=
  thread_count_fallback "abc" 8 (by decide)

/-- C6 counterexample: the file contents `"\nab\n"` contain an empty first
line, and the empty string becomes a pattern of the resulting Pattern Set. -/
theorem empty_line_pattern_cex :
    rustLines "\nab\n" = ["", "ab"] ∧
    get_regexes_from_file (some "\nab\n") = Except.ok ["", "ab"] :=
  ⟨rfl, rfl⟩

/-- C6 (amended): every line of the file, empty lines included, becomes one
pattern: the constructed Pattern Set is a permutation of all the file's
lines. -/
theorem patterns_are_all_lines (contents : String) :
    get_regexes_from_file (some contents)
        = Except.ok (sortByLen (rustLines contents)) ∧
    (sortByLen (rustLines contents)).Perm (rustLines contents) :=
  ⟨rfl, sortByLen_perm _⟩

/-- C7: with no `--regex` and an unreadable input file, the run aborts with a
diagnostic while constructing the Pattern Set, before any search work: the
outcome is an error carrying no `SearchResult`, whatever the generator,
matcher, thread argument or fuel. -/
theorem unreadable_file_aborts (threadsArg : Option String)
    (case_sensitive : Bool) (gen : Nat → Candidate)
    (isMatch : String → String → Bool) (fuel ncpus : Nat) :
    run threadsArg none none case_sensitive gen isMatch fuel ncpus
      = Except.error "get_regexes_from_file: File::open failed" :=
  rfl

/-- C8: Pattern Set normalization is idempotent and stable: sorting an
already-length-sorted list returns it unchanged, and every length class of
the output equals that of the input in its original order. -/
theorem normalization_idempotent_stable :
    (∀ xs : List String,
      (xs.Pairwise fun a b => a.length ≤ b.length) → sortByLen xs = xs) ∧
    ∀ (xs : List String) (k : Nat),
      (sortByLen xs).filter (fun s => s.length == k)
        = xs.filter (fun s => s.length == k) :=
  ⟨fun _ h => sortByLen_of_pairwise h, fun xs k => filter_sortByLen xs k⟩

theorem normalization_idempotent_stable_w :
    sortByLen ["a", "bc", "def"] = ["a", "bc", "def"] :=
  normalization_idempotent_stable.1 ["a", "bc", "def"] (by decide)

/-- C9: with `--regex` supplied, the pattern vector handed to the search is
the one-element list containing that string verbatim — no file is read (the
file may even be unreadable), no sorting is applied, and no validation is
performed. -/
theorem regex_flag_verbatim (re : String) (file : Option String) :
    resolve_regexes (some re) file = Except.ok [re] :=
  rfl

/-- C10: in the pipeline's event trace, every drawn candidate's counter
increment precedes that candidate's key-pair generation, which precedes its
match test: the counter counts generations started, not match tests
completed. -/
theorem counter_inc_before_keygen (gen : Nat → Candidate) (p : Candidate → Bool)
    (fuel j : Nat) (h : Ev.keygen j ∈ eventTrace gen p fuel 0) :
    (eventTrace gen p fuel 0).indexOf (Ev.inc j)
        < (eventTrace gen p fuel 0).indexOf (Ev.keygen j) ∧
    (eventTrace gen p fuel 0).indexOf (Ev.keygen j)
        < (eventTrace gen p fuel 0).indexOf (Ev.matchTest j) :=
  eventTrace_order fuel 0 j h

theorem counter_inc_before_keygen_w :
    (eventTrace (fun _ => ⟨"p", "q", "ab"⟩)
        (fun c => c.address == "ab") 1 0).indexOf (Ev.inc 0)
      < (eventTrace (fun _ => ⟨"p", "q", "ab"⟩)
        (fun c => c.address == "ab") 1 0).indexOf (Ev.keygen 0) ∧
    (eventTrace (fun _ => ⟨"p", "q", "ab"⟩)
        (fun c => c.address == "ab") 1 0).indexOf (Ev.keygen 0)
      < (eventTrace (fun _ => ⟨"p", "q", "ab"⟩)
        (fun c => c.address == "ab") 1 0).indexOf (Ev.matchTest 0) :=
  counter_inc_before_keygen (fun _ => ⟨"p", "q", "ab"⟩)
    (fun c => c.address == "ab") 1 0 (by decide)

end Nakatoshi
